import Mathlib

/-!
Verification of the toast-notification state manager ("Notification Queue
Manager") documented in `docs/services/ui.md` of the AI-pair-programmer
repository.

The repository documents the manager's internals with code fragments:
the constants `TOAST_LIMIT = 1` and `TOAST_REMOVE_DELAY = 1000000`, the
`Action` union, the timer bookkeeping (`toastTimeouts` map plus
`addToRemoveQueue`), and the id generator `genId`.  Those fragments are
embedded here directly.  The reducer cases, the `toast()` / `dismiss` /
`update` entry points and the listener-dispatch loop are not shipped in
the repository sources; they are modelled from the specification's words
and each such definition carries a doc comment starting
`Modelled from the spec:`.

The single-threaded event loop is modelled operationally: a system state
`Sys` holds the toast collection, the keys of the `toastTimeouts` map,
the identifiers of scheduled-but-not-yet-fired removal timers, the id
counter and a log of dispatched actions; each public operation and each
timer expiration is a total step function on `Sys`.
-/

namespace ToastSpec

/-- `TOAST_LIMIT` from `docs/services/ui.md`: number of toasts shown at once. -/
def TOAST_LIMIT : Nat := 1

/-- `TOAST_REMOVE_DELAY` from `docs/services/ui.md`: removal delay in ms. -/
def TOAST_REMOVE_DELAY : Nat := 1000000

/-- `Number.MAX_SAFE_INTEGER` = 2^53 - 1, the modulus used by `genId`. -/
def MAX_SAFE_INTEGER : Nat := 2 ^ 53 - 1

/-- One notification record (`ToasterToast` in the source): an id, the
display payload fields (opaque to the manager, modelled as strings), and
the `open` flag (`isOpen` here; `true` while shown, `false` once the
dismissal transition has begun). -/
structure ToasterToast where
  id : String
  title : Option String
  description : Option String
  action : Option String
  isOpen : Bool
deriving DecidableEq

/-- The payload accepted by `toast(props)`: optional `title`,
`description` and `action`, all opaque to the manager. -/
structure ToastPayload where
  title : Option String
  description : Option String
  action : Option String
deriving DecidableEq

/-- A partial payload for `UPDATE_TOAST` (`Partial<ToasterToast>` with the
target `id`): a field that is `none` is absent from the patch and leaves
the record's field unchanged. -/
structure ToastPatch where
  id : String
  title : Option String
  description : Option String
  action : Option String
  isOpen : Option Bool
deriving DecidableEq

/-- The `Action` union from `docs/services/ui.md`:
`ADD_TOAST | UPDATE_TOAST | DISMISS_TOAST | REMOVE_TOAST`. -/
inductive Action where
  | addToast (toast : ToasterToast)
  | updateToast (toast : ToastPatch)
  | dismissToast (toastId : Option String)
  | removeToast (toastId : Option String)
deriving DecidableEq

/-- The whole manager state as seen by the event loop:
`toasts` is the reducer state (`State` in the source), `timeouts` is the
key set of the `toastTimeouts` map, `pending` lists the identifiers whose
`setTimeout` removal callback is scheduled and has not fired yet,
`count` is the `genId` counter, and `log` records every dispatched
action in dispatch order. -/
structure Sys where
  toasts : List ToasterToast
  timeouts : List String
  pending : List String
  count : Nat
  log : List Action
deriving DecidableEq

/-- The initial state: empty collection, empty timer map, no pending
timer, counter at 0. -/
def initSys : Sys := ⟨[], [], [], 0, []⟩

/-- `genId` from `docs/services/ui.md`:
`count = (count + 1) % Number.MAX_SAFE_INTEGER; return count.toString()`.
Takes the current counter, returns the next counter and the issued id. -/
def genId (count : Nat) : Nat × String :=
  ((count + 1) % MAX_SAFE_INTEGER, toString ((count + 1) % MAX_SAFE_INTEGER))

/-- `addToRemoveQueue` from `docs/services/ui.md`: if the `toastTimeouts`
map already has an entry for `toastId` it returns immediately; otherwise
it schedules a removal timer (here: appends `toastId` to `pending`) and
stores the handle in the map (appends `toastId` to `timeouts`). -/
def addToRemoveQueue (timeouts pending : List String) (toastId : String) :
    List String × List String :=
  if toastId ∈ timeouts then (timeouts, pending)
  else (timeouts ++ [toastId], pending ++ [toastId])

/-- Modelled from the spec: the merge performed by `UPDATE_TOAST`
(`{ ...t, ...action.toast }`); the repository ships no reducer source.
Per the spec, "fields not present are left unchanged". -/
def mergeToast (t : ToasterToast) (p : ToastPatch) : ToasterToast :=
  { id := p.id
    title := match p.title with | some v => some v | none => t.title
    description := match p.description with | some v => some v | none => t.description
    action := match p.action with | some v => some v | none => t.action
    isOpen := match p.isOpen with | some v => v | none => t.isOpen }

/-- Modelled from the spec: the reducer over the toast collection; the
repository documents only the `Action` union and `TOAST_LIMIT`, not the
reducer body.  `ADD_TOAST` "inserts the record at the head of the ordered
collection (most-recent-first) ... and truncates the collection to the
configured visible limit"; `UPDATE_TOAST` merges a partial payload into
the matching record and is a no-op on an unknown id; `DISMISS_TOAST`
flips the flag of the targeted record (or of all records when the id is
omitted); `REMOVE_TOAST` deletes the targeted record (or all records
when the id is omitted). -/
def reducer (toasts : List ToasterToast) : Action → List ToasterToast
  | .addToast t => (t :: toasts).take TOAST_LIMIT
  | .updateToast p => toasts.map fun t => if t.id = p.id then mergeToast t p else t
  | .dismissToast tid =>
      toasts.map fun t =>
        if tid = some t.id ∨ tid = none then { t with isOpen := false } else t
  | .removeToast none => []
  | .removeToast (some i) => toasts.filter fun t => t.id ≠ i

/-- Modelled from the spec: `dispatch` applies the reducer to the shared
state and notifies observers with the fully-applied state; here it also
records the action in the dispatch log. -/
def dispatch (s : Sys) (a : Action) : Sys :=
  { s with toasts := reducer s.toasts a, log := s.log ++ [a] }

/-- Modelled from the spec: the `toast(props)` entry point (`notify`):
"assigns a new unique identifier, inserts the record at the head of the
ordered collection (most-recent-first), marks it visible, and truncates
the collection to the configured visible limit".  Returns the new state
and the issued identifier (the handle is bound to this id). -/
def notify (s : Sys) (p : ToastPayload) : Sys × String :=
  let next := genId s.count
  let t : ToasterToast :=
    { id := next.2, title := p.title, description := p.description
      action := p.action, isOpen := true }
  (dispatch { s with count := next.1 } (.addToast t), next.2)

/-- Modelled from the spec: `update(id, partialPayload)` dispatches
`UPDATE_TOAST` with the patch. -/
def update (s : Sys) (p : ToastPatch) : Sys :=
  dispatch s (.updateToast p)

/-- Modelled from the spec: the scheduling pass of a global dismiss —
`state.toasts.forEach((toast) => addToRemoveQueue(toast.id))` — applied
to the timer bookkeeping `(timeouts, pending)`, left to right. -/
def queueAll (tm pd : List String) (L : List ToasterToast) : List String × List String :=
  L.foldl
    (fun (acc : List String × List String) (t : ToasterToast) =>
      addToRemoveQueue acc.1 acc.2 t.id)
    (tm, pd)

/-- Modelled from the spec: `dismiss(toastId?)`.  With an id it calls
`addToRemoveQueue` for that id; with no id it calls `addToRemoveQueue`
for every current record; then it dispatches `DISMISS_TOAST`, which
flips the targeted `open` flags synchronously. -/
def dismiss (s : Sys) (toastId : Option String) : Sys :=
  let tp := match toastId with
    | some id => addToRemoveQueue s.timeouts s.pending id
    | none => queueAll s.timeouts s.pending s.toasts
  dispatch { s with timeouts := tp.1, pending := tp.2 } (.dismissToast toastId)

/-- The `setTimeout` callback from `addToRemoveQueue` in
`docs/services/ui.md`: when the removal timer for `toastId` fires it
first deletes its own `toastTimeouts` entry and then dispatches
`REMOVE_TOAST` for that id.  Firing is only possible while the timer is
actually pending. -/
def fireTimer (s : Sys) (toastId : String) : Sys :=
  if toastId ∈ s.pending then
    dispatch
      { s with pending := s.pending.erase toastId
               timeouts := s.timeouts.erase toastId }
      (.removeToast (some toastId))
  else s

/-- One event of the single-threaded event loop: a public operation or a
timer expiration. -/
inductive Ev where
  | notifyE (p : ToastPayload)
  | updateE (p : ToastPatch)
  | dismissE (toastId : Option String)
  | fireE (toastId : String)
deriving DecidableEq

/-- Apply one event to the system state. -/
def stepEv (s : Sys) : Ev → Sys
  | .notifyE p => (notify s p).1
  | .updateE p => update s p
  | .dismissE tid => dismiss s tid
  | .fireE tid => fireTimer s tid

/-- Run a sequence of events from a state. -/
def run (s : Sys) (evs : List Ev) : Sys :=
  evs.foldl stepEv s

/-- Well-formedness of the timer bookkeeping: the `toastTimeouts` map has
an entry for an identifier exactly while that identifier's removal timer
is pending, and at most one timer is ever pending per identifier. -/
def Wf (s : Sys) : Prop := s.timeouts = s.pending ∧ s.timeouts.Nodup

instance (s : Sys) : Decidable (Wf s) := by
  unfold Wf; infer_instance

/-- Modelled from the spec: a registered observer of the shared state.
`key` is the token identifying the registration; `unsubs` lists the
tokens whose unsubscribe functions this observer's callback invokes when
it is called during a dispatch pass. -/
structure Observer where
  key : Nat
  unsubs : List Nat
deriving DecidableEq

/-- Modelled from the spec: one dispatch pass over the listener list,
implemented "via a copy-on-iterate pattern (snapshot the observer list
before invoking callbacks)".  The pass iterates over the snapshot taken
at dispatch time; invoking an observer delivers the state to it (its key
is appended to the delivery log, second component) and then applies the
unsubscriptions its callback performs to the live listener list (first
component). -/
def dispatchPass (listeners : List Observer) : List Observer × List Nat :=
  listeners.foldl
    (fun (acc : List Observer × List Nat) (o : Observer) =>
      (acc.1.filter fun l => l.key ∉ o.unsubs, acc.2 ++ [o.key]))
    (listeners, [])

/-- Numeric value of a decimal digit character. -/
def charVal (c : Char) : Nat := c.toNat - Char.toNat '0'

/-- Decode a list of decimal digit characters, most significant first,
on top of an accumulator. -/
def decodeDigits (acc : Nat) (l : List Char) : Nat :=
  l.foldl (fun a c => a * 10 + charVal c) acc

/-- Decode the decimal string representation of a number. -/
def decodeStr (s : String) : Nat := decodeDigits 0 s.data

/-- Push the decimal digits of `n` onto the accumulator `acc`, most
significant first: the specification of what `Nat.toDigitsCore` appends. -/
def pushDigits (acc n : Nat) : Nat :=
  if _h : n < 10 then acc * 10 + n
  else pushDigits acc (n / 10) * 10 + n % 10
termination_by n
decreasing_by
  exact Nat.div_lt_self (by omega) (by omega)

/-- The identifiers issued by `n` successive `genId` calls starting from
counter value `c`, in issue order. -/
def genIds : Nat → Nat → List String
  | _, 0 => []
  | c, n + 1 => (genId c).2 :: genIds (genId c).1 n

/-- The per-record flag flip a targeted `DISMISS_TOAST` performs. -/
def dismissFlag (id : String) (t : ToasterToast) : ToasterToast :=
  if some id = some t.id ∨ (some id : Option String) = none
  then { t with isOpen := false } else t

/-- The records a sequence of payloads turns into when notified starting
from counter value `c`, in creation order. -/
def mkAllFrom (c : Nat) : List ToastPayload → List ToasterToast
  | [] => []
  | p :: ps =>
      { id := (genId c).2, title := p.title, description := p.description
        action := p.action, isOpen := true } :: mkAllFrom (genId c).1 ps

/-- Run a sequence of `notify` calls, keeping only the state. -/
def notifyMany (s : Sys) (ps : List ToastPayload) : Sys :=
  ps.foldl (fun s p => (notify s p).1) s

/-- A concrete payload titled "A". -/
def pA : ToastPayload := { title := some "A", description := none, action := none }

/-- A concrete payload titled "B". -/
def pB : ToastPayload := { title := some "B", description := none, action := none }

/-- A concrete patch targeting id "1". -/
def qW : ToastPatch :=
  { id := "1", title := some "B", description := none, action := none, isOpen := none }

/-- A concrete patch targeting the unknown id "9". -/
def q9 : ToastPatch :=
  { id := "9", title := some "X", description := none, action := none, isOpen := none }

/-- The state after one `notify` from the initial state: one record with
id "1". -/
def sW : Sys := (notify initSys pA).1

/-- The state after dismissing that record: its removal timer is
pending. -/
def sD : Sys := dismiss sW (some "1")

/-- The state in which record "1" was dismissed (timer pending) and then
evicted by a further `notify` exceeding the visible limit. -/
def sE : Sys := run initSys [Ev.notifyE pA, Ev.dismissE (some "1"), Ev.notifyE pB]

lemma charVal_digitChar {d : Nat} (h : d < 10) : charVal (Nat.digitChar d) = d := by
  interval_cases d <;> decide

lemma pushDigits_lt (acc n : Nat) (h : n < 10) : pushDigits acc n = acc * 10 + n := by
  rw [pushDigits]
  simp [h]

lemma pushDigits_ge (acc n : Nat) (h : ¬ n < 10) :
    pushDigits acc n = pushDigits acc (n / 10) * 10 + n % 10 := by
  rw [pushDigits]
  simp [h]

lemma pushDigits_zero (n : Nat) : pushDigits 0 n = n := by
  induction n using Nat.strong_induction_on with
  | _ n ih =>
    by_cases h : n < 10
    · rw [pushDigits_lt 0 n h]
      omega
    · rw [pushDigits_ge 0 n h, ih (n / 10) (Nat.div_lt_self (by omega) (by omega))]
      omega

lemma toDigitsCore_decode (n : Nat) :
    ∀ fuel, n < fuel → ∀ (ds : List Char) (acc : Nat),
      List.foldl (fun a c => a * 10 + charVal c) acc (Nat.toDigitsCore 10 fuel n ds)
        = List.foldl (fun a c => a * 10 + charVal c) (pushDigits acc n) ds := by
  induction n using Nat.strong_induction_on with
  | _ n ih =>
    intro fuel hf ds acc
    cases fuel with
    | zero => omega
    | succ f =>
      simp only [Nat.toDigitsCore]
      by_cases hdiv : n / 10 = 0
      · have hn : n < 10 := by omega
        rw [if_pos hdiv]
        simp only [List.foldl_cons]
        rw [charVal_digitChar (Nat.mod_lt n (by omega)), pushDigits_lt acc n hn,
          Nat.mod_eq_of_lt hn]
      · have hn : ¬ n < 10 := by omega
        rw [if_neg hdiv]
        rw [ih (n / 10) (Nat.div_lt_self (by omega) (by omega)) f (by omega)]
        simp only [List.foldl_cons]
        rw [charVal_digitChar (Nat.mod_lt n (by omega)), pushDigits_ge acc n hn]

lemma decodeStr_repr (n : Nat) : decodeStr (Nat.repr n) = n := by
  show decodeDigits 0 (Nat.toDigitsCore 10 (n + 1) n []).asString.data = n
  rw [show (Nat.toDigitsCore 10 (n + 1) n []).asString.data
      = Nat.toDigitsCore 10 (n + 1) n [] from rfl]
  unfold decodeDigits
  rw [toDigitsCore_decode n (n + 1) (by omega) [] 0]
  simp [pushDigits_zero]

lemma repr_injective {m n : Nat} (h : Nat.repr m = Nat.repr n) : m = n := by
  have hm := decodeStr_repr m
  rw [h, decodeStr_repr n] at hm
  exact hm.symm

lemma toString_nat_injective {m n : Nat} (h : toString m = toString n) : m = n :=
  repr_injective h

lemma genIds_eq (n : Nat) : ∀ c, genIds c n
    = (List.range n).map (fun i => toString ((c + i + 1) % MAX_SAFE_INTEGER)) := by
  induction n with
  | zero => intro c; rfl
  | succ n ih =>
    intro c
    rw [show genIds c (n + 1) = (genId c).2 :: genIds (genId c).1 n from rfl,
      show (genId c).1 = (c + 1) % MAX_SAFE_INTEGER from rfl, ih,
      List.range_succ_eq_map, List.map_cons, List.map_map]
    refine List.cons_eq_cons.mpr ⟨rfl, List.map_congr_left ?_⟩
    intro i _hi
    show toString (((c + 1) % MAX_SAFE_INTEGER + i + 1) % MAX_SAFE_INTEGER)
        = toString ((c + (i + 1) + 1) % MAX_SAFE_INTEGER)
    congr 1
    rw [Nat.add_assoc ((c + 1) % MAX_SAFE_INTEGER) i 1, Nat.mod_add_mod]
    congr 1
    omega

lemma genIds_zero_eq (n : Nat) (h : n < MAX_SAFE_INTEGER) :
    genIds 0 n = (List.range n).map (fun i => toString (i + 1)) := by
  rw [genIds_eq]
  refine List.map_congr_left ?_
  intro i hi
  have hin : i < n := List.mem_range.mp hi
  congr 1
  rw [Nat.zero_add]
  exact Nat.mod_eq_of_lt (by omega)

lemma genIds_zero_nodup (n : Nat) (h : n < MAX_SAFE_INTEGER) : (genIds 0 n).Nodup := by
  rw [genIds_zero_eq n h]
  refine List.Nodup.map_on ?_ (List.nodup_range n)
  intro i _hi j _hj hij
  have := toString_nat_injective hij
  omega

lemma addQ_fst_eq_snd {tm pd : List String} (id : String) (h : tm = pd) :
    (addToRemoveQueue tm pd id).1 = (addToRemoveQueue tm pd id).2 := by
  subst h
  unfold addToRemoveQueue
  split <;> rfl

lemma addQ_nodup (tm pd : List String) (id : String) (hn : tm.Nodup) :
    (addToRemoveQueue tm pd id).1.Nodup := by
  unfold addToRemoveQueue
  split
  · exact hn
  · next h => simp [List.nodup_append, hn, h]

lemma addQ_mem_mono {tm pd : List String} (id : String) {x : String} (hx : x ∈ tm) :
    x ∈ (addToRemoveQueue tm pd id).1 := by
  unfold addToRemoveQueue
  split
  · exact hx
  · exact List.mem_append_left _ hx

lemma addQ_self_mem (tm pd : List String) (id : String) :
    id ∈ (addToRemoveQueue tm pd id).1 := by
  unfold addToRemoveQueue
  split
  · next h => exact h
  · exact List.mem_append_right _ (List.mem_singleton.mpr rfl)

lemma addQ_pending_of_absent {tm pd : List String} (id : String) (h : id ∉ tm) :
    (addToRemoveQueue tm pd id).2 = pd ++ [id] := by
  unfold addToRemoveQueue
  rw [if_neg h]

lemma addQ_noop_of_mem {tm pd : List String} (id : String) (h : id ∈ tm) :
    addToRemoveQueue tm pd id = (tm, pd) := by
  unfold addToRemoveQueue
  rw [if_pos h]

lemma queueAll_spec (L : List ToasterToast) :
    ∀ tm pd, tm = pd → tm.Nodup →
      (queueAll tm pd L).1 = (queueAll tm pd L).2 ∧
      (queueAll tm pd L).1.Nodup ∧
      (∀ x ∈ tm, x ∈ (queueAll tm pd L).1) ∧
      (∀ t ∈ L, t.id ∈ (queueAll tm pd L).1) := by
  induction L with
  | nil =>
    intro tm pd h hn
    exact ⟨h, hn, fun x hx => hx, fun t ht => absurd ht (List.not_mem_nil t)⟩
  | cons t L ih =>
    intro tm pd h hn
    have hstep : queueAll tm pd (t :: L)
        = queueAll (addToRemoveQueue tm pd t.id).1 (addToRemoveQueue tm pd t.id).2 L := rfl
    have h' := addQ_fst_eq_snd t.id h
    have hn' := addQ_nodup tm pd t.id hn
    obtain ⟨e, nd, mono, mem⟩ :=
      ih (addToRemoveQueue tm pd t.id).1 (addToRemoveQueue tm pd t.id).2 h' hn'
    refine ⟨hstep ▸ e, hstep ▸ nd, ?_, ?_⟩
    · intro x hx
      exact hstep ▸ mono x (addQ_mem_mono t.id hx)
    · intro u hu
      rcases List.mem_cons.mp hu with rfl | hu'
      · exact hstep ▸ mono u.id (addQ_self_mem tm pd u.id)
      · exact hstep ▸ mem u hu'

lemma wf_step (s : Sys) (e : Ev) (h : Wf s) : Wf (stepEv s e) := by
  obtain ⟨he, hn⟩ := h
  cases e with
  | notifyE p => exact ⟨he, hn⟩
  | updateE p => exact ⟨he, hn⟩
  | dismissE tid =>
    cases tid with
    | some id => exact ⟨addQ_fst_eq_snd id he, addQ_nodup s.timeouts s.pending id hn⟩
    | none =>
      obtain ⟨e', nd, _, _⟩ := queueAll_spec s.toasts s.timeouts s.pending he hn
      exact ⟨e', nd⟩
  | fireE id =>
    show Wf (fireTimer s id)
    unfold fireTimer
    split
    · exact ⟨by rw [he]; rfl, hn.erase id⟩
    · exact ⟨he, hn⟩

lemma wf_initSys : Wf initSys := ⟨rfl, List.nodup_nil⟩

lemma wf_run (evs : List Ev) : ∀ s, Wf s → Wf (run s evs) := by
  induction evs with
  | nil => intro s h; exact h
  | cons e evs ih => intro s h; exact ih (stepEv s e) (wf_step s e h)

lemma take_append_take {α : Type} (a b : List α) (N : Nat) :
    (a ++ b.take N).take N = (a ++ b).take N := by
  rw [List.take_append_eq_append_take, List.take_append_eq_append_take, List.take_take]
  congr 1
  rw [Nat.min_eq_left (Nat.sub_le N a.length)]

lemma mkAllFrom_length (ps : List ToastPayload) : ∀ c, (mkAllFrom c ps).length = ps.length := by
  induction ps with
  | nil => intro c; rfl
  | cons p ps ih =>
    intro c
    show (mkAllFrom c (p :: ps)).length = ps.length + 1
    rw [show mkAllFrom c (p :: ps)
        = { id := (genId c).2, title := p.title, description := p.description,
            action := p.action, isOpen := true } :: mkAllFrom (genId c).1 ps from rfl]
    rw [List.length_cons, ih (genId c).1]

lemma notifyMany_toasts (ps : List ToastPayload) :
    ∀ s : Sys, s.toasts.length ≤ TOAST_LIMIT →
      (notifyMany s ps).toasts
        = ((mkAllFrom s.count ps).reverse ++ s.toasts).take TOAST_LIMIT := by
  induction ps with
  | nil =>
    intro s h
    simp only [notifyMany, List.foldl_nil, mkAllFrom, List.reverse_nil, List.nil_append]
    exact (List.take_of_length_le h).symm
  | cons p ps ih =>
    intro s h
    have ht : (notify s p).1.toasts
        = ({ id := (genId s.count).2, title := p.title, description := p.description,
             action := p.action, isOpen := true } :: s.toasts).take TOAST_LIMIT := rfl
    have hlen : (notify s p).1.toasts.length ≤ TOAST_LIMIT := by
      rw [ht, List.length_take]
      exact Nat.min_le_left _ _
    have hstep : notifyMany s (p :: ps) = notifyMany (notify s p).1 ps := rfl
    rw [hstep, ih (notify s p).1 hlen, ht,
      show (notify s p).1.count = (genId s.count).1 from rfl,
      show mkAllFrom s.count (p :: ps)
        = { id := (genId s.count).2, title := p.title, description := p.description,
            action := p.action, isOpen := true } :: mkAllFrom (genId s.count).1 ps from rfl,
      take_append_take, List.reverse_cons, List.append_assoc, List.singleton_append]

lemma dispatchPass_log (snap : List Observer) :
    ∀ (live : List Observer) (log : List Nat),
      (snap.foldl
        (fun (acc : List Observer × List Nat) (o : Observer) =>
          (acc.1.filter fun l => l.key ∉ o.unsubs, acc.2 ++ [o.key]))
        (live, log)).2
      = log ++ snap.map (fun o => o.key) := by
  induction snap with
  | nil => intro live log; simp
  | cons o snap ih =>
    intro live log
    rw [List.foldl_cons]
    rw [ih (live.filter fun l => l.key ∉ o.unsubs) (log ++ [o.key])]
    simp

lemma addQ_self_mem_snd (tm pd : List String) (id : String) (h : tm = pd) :
    id ∈ (addToRemoveQueue tm pd id).2 := by
  subst h
  unfold addToRemoveQueue
  split
  · next hm => exact hm
  · exact List.mem_append_right _ (List.mem_singleton.mpr rfl)

lemma dismiss_some_toasts (s : Sys) (id : String) :
    (dismiss s (some id)).toasts = s.toasts.map (dismissFlag id) := rfl

lemma dismissFlag_idem (id : String) (t : ToasterToast) :
    dismissFlag id (dismissFlag id t) = dismissFlag id t := by
  unfold dismissFlag
  by_cases hc : some id = some t.id ∨ (some id : Option String) = none
  · rw [if_pos hc]
    exact if_pos hc
  · rw [if_neg hc]
    exact if_neg hc

lemma dismiss_some_timeouts (s : Sys) (id : String) :
    (dismiss s (some id)).timeouts = (addToRemoveQueue s.timeouts s.pending id).1 := rfl

lemma dismiss_some_pending (s : Sys) (id : String) :
    (dismiss s (some id)).pending = (addToRemoveQueue s.timeouts s.pending id).2 := rfl

lemma dismiss_none_toasts (s : Sys) :
    (dismiss s none).toasts = s.toasts.map (fun t => { t with isOpen := false }) := by
  show s.toasts.map (fun t =>
      if (none : Option String) = some t.id ∨ (none : Option String) = none
      then { t with isOpen := false } else t)
    = s.toasts.map (fun t => { t with isOpen := false })
  exact List.map_congr_left fun t _ => if_pos (Or.inr rfl)

lemma dismiss_none_pending (s : Sys) :
    (dismiss s none).pending = (queueAll s.timeouts s.pending s.toasts).2 := rfl

lemma update_toasts (s : Sys) (p : ToastPatch) :
    (update s p).toasts
      = s.toasts.map (fun t => if t.id = p.id then mergeToast t p else t) := rfl

/-- C4: for every set of registered subscribers and every state change,
each subscriber of the dispatch pass receives the notification even if
callbacks unsubscribe observers (themselves included) during the pass:
the pass iterates a snapshot of the listener list taken at dispatch time,
so the delivery log is exactly the keys of all listeners registered when
the pass began, in registration order, regardless of the `unsubs` each
callback performs. -/
theorem dispatch_delivers_to_all (listeners : List Observer) :
    (dispatchPass listeners).2 = listeners.map (fun o => o.key) := by
  unfold dispatchPass
  rw [dispatchPass_log listeners listeners [], List.nil_append]

/-- C5: `dismiss(id)` twice in immediate succession raises no error and
schedules exactly one removal timer for `id`: starting from any
well-formed state with no timer entry for `id`, after the double dismiss
the pending-timer list holds exactly one timer for `id`, and the second
dismiss changes neither the timer bookkeeping nor the collection. -/
theorem dismiss_twice_one_timer (s : Sys) (id : String) (h : Wf s)
    (hid : id ∉ s.timeouts) :
    (dismiss (dismiss s (some id)) (some id)).pending.count id = 1 ∧
    (dismiss (dismiss s (some id)) (some id)).pending
      = (dismiss s (some id)).pending ∧
    (dismiss (dismiss s (some id)) (some id)).timeouts
      = (dismiss s (some id)).timeouts ∧
    (dismiss (dismiss s (some id)) (some id)).toasts
      = (dismiss s (some id)).toasts := by
  obtain ⟨he, hn⟩ := h
  have h1t : (dismiss s (some id)).timeouts = s.timeouts ++ [id] := by
    rw [dismiss_some_timeouts]
    unfold addToRemoveQueue
    rw [if_neg hid]
  have h1p : (dismiss s (some id)).pending = s.pending ++ [id] := by
    rw [dismiss_some_pending, addQ_pending_of_absent id hid]
  have hmem : id ∈ (dismiss s (some id)).timeouts := by
    rw [h1t]
    exact List.mem_append_right _ (List.mem_singleton.mpr rfl)
  have h2 : addToRemoveQueue (dismiss s (some id)).timeouts (dismiss s (some id)).pending id
      = ((dismiss s (some id)).timeouts, (dismiss s (some id)).pending) :=
    addQ_noop_of_mem id hmem
  have h2p : (dismiss (dismiss s (some id)) (some id)).pending
      = (dismiss s (some id)).pending := by
    rw [dismiss_some_pending, h2]
  have h2t : (dismiss (dismiss s (some id)) (some id)).timeouts
      = (dismiss s (some id)).timeouts := by
    rw [dismiss_some_timeouts, h2]
  refine ⟨?_, h2p, h2t, ?_⟩
  · rw [h2p, h1p, List.count_append]
    have hnp : id ∉ s.pending := he ▸ hid
    rw [List.count_eq_zero.mpr hnp]
    simp
  · rw [dismiss_some_toasts, dismiss_some_toasts, List.map_map]
    refine List.map_congr_left ?_
    intro t _ht
    simp only [Function.comp_apply]
    exact dismissFlag_idem id t

/-- C6: `dismiss()` with no argument marks every record currently in the
collection as not visible and schedules a deferred removal for each of
them: every current record's id afterwards has a pending removal timer. -/
theorem dismiss_all_marks_and_schedules (s : Sys) (h : Wf s) :
    (dismiss s none).toasts = s.toasts.map (fun t => { t with isOpen := false }) ∧
    (∀ t ∈ s.toasts, t.id ∈ (dismiss s none).pending) := by
  obtain ⟨he, hn⟩ := h
  obtain ⟨e, _, _, mem⟩ := queueAll_spec s.toasts s.timeouts s.pending he hn
  refine ⟨dismiss_none_toasts s, ?_⟩
  intro t ht
  rw [dismiss_none_pending, ← e]
  exact mem t ht

/-- C7: `update(id, payload)` with an id matching no current record
leaves the collection unchanged and raises no error; with a matching id
it merges exactly the fields present in the partial payload into the
matching record — a field absent from the patch keeps the record's old
value and a present one overwrites it — and leaves every other record
unchanged. -/
theorem update_merge_semantics (s : Sys) (p : ToastPatch) :
    ((∀ t ∈ s.toasts, t.id ≠ p.id) → (update s p).toasts = s.toasts) ∧
    (∀ t ∈ s.toasts, t.id = p.id → mergeToast t p ∈ (update s p).toasts) ∧
    (∀ t ∈ s.toasts, t.id ≠ p.id → t ∈ (update s p).toasts) ∧
    (∀ t : ToasterToast,
      (mergeToast t p).id = p.id ∧
      (p.title = none → (mergeToast t p).title = t.title) ∧
      (∀ v, p.title = some v → (mergeToast t p).title = some v) ∧
      (p.description = none → (mergeToast t p).description = t.description) ∧
      (∀ v, p.description = some v → (mergeToast t p).description = some v) ∧
      (p.action = none → (mergeToast t p).action = t.action) ∧
      (∀ v, p.action = some v → (mergeToast t p).action = some v) ∧
      (p.isOpen = none → (mergeToast t p).isOpen = t.isOpen) ∧
      (∀ b, p.isOpen = some b → (mergeToast t p).isOpen = b)) := by
  refine ⟨?_, ?_, ?_, ?_⟩
  · intro h
    rw [update_toasts]
    have hpt : ∀ t ∈ s.toasts,
        (if t.id = p.id then mergeToast t p else t) = t :=
      fun t ht => if_neg (h t ht)
    rw [List.map_congr_left hpt, List.map_id']
  · intro t ht hid
    rw [update_toasts]
    have : (if t.id = p.id then mergeToast t p else t) = mergeToast t p := if_pos hid
    exact this ▸ List.mem_map_of_mem _ ht
  · intro t ht hid
    rw [update_toasts]
    have : (if t.id = p.id then mergeToast t p else t) = t := if_neg hid
    exact this ▸ List.mem_map_of_mem _ ht
  · intro t
    refine ⟨rfl, ?_, ?_, ?_, ?_, ?_, ?_, ?_, ?_⟩ <;>
      first
        | (intro hx; simp [mergeToast, hx])
        | (intro v hx; simp [mergeToast, hx])

lemma dismissFlag_of_ne (id : String) (t : ToasterToast) (h : t.id ≠ id) :
    dismissFlag id t = t := by
  unfold dismissFlag
  rw [if_neg]
  intro hor
  rcases hor with hx | hx
  · exact h (Option.some.inj hx).symm
  · exact Option.noConfusion hx

lemma fireTimer_toasts_of_absent (s : Sys) (id : String)
    (h : ∀ t ∈ s.toasts, t.id ≠ id) : (fireTimer s id).toasts = s.toasts := by
  unfold fireTimer
  split
  · show s.toasts.filter (fun t => t.id ≠ id) = s.toasts
    rw [List.filter_eq_self]
    intro t ht
    exact decide_eq_true (h t ht)
  · rfl

/-- C8: every public operation of the manager is total — in this
embedding each is a total function on states, with no error value in its
type — and unrecognized inputs are no-ops on the collection: an `update`
or targeted `dismiss` or removal for an id matching no record leaves the
collection unchanged, firing a timer that is not pending leaves the whole
state unchanged, and `notify` passes the payload fields through opaquely
into the stored record. -/
theorem ops_total_noop_on_unknown (s : Sys) (p : ToastPayload) (q : ToastPatch)
    (id : String) :
    ((∀ t ∈ s.toasts, t.id ≠ q.id) → (update s q).toasts = s.toasts) ∧
    ((∀ t ∈ s.toasts, t.id ≠ id) → (dismiss s (some id)).toasts = s.toasts) ∧
    (id ∉ s.pending → fireTimer s id = s) ∧
    ((∀ t ∈ s.toasts, t.id ≠ id) → (fireTimer s id).toasts = s.toasts) ∧
    ((notify s p).1.toasts
      = [{ id := (genId s.count).2, title := p.title, description := p.description,
           action := p.action, isOpen := true }]) := by
  refine ⟨?_, ?_, ?_, fireTimer_toasts_of_absent s id, rfl⟩
  · intro h
    rw [update_toasts]
    have hpt : ∀ t ∈ s.toasts, (if t.id = q.id then mergeToast t q else t) = t :=
      fun t ht => if_neg (h t ht)
    rw [List.map_congr_left hpt, List.map_id']
  · intro h
    rw [dismiss_some_toasts]
    have hpt : ∀ t ∈ s.toasts, dismissFlag id t = t :=
      fun t ht => dismissFlag_of_ne id t (h t ht)
    rw [List.map_congr_left hpt, List.map_id']
  · intro hp
    unfold fireTimer
    rw [if_neg hp]

/-- C2: for a record present in the collection, `dismiss(id)`
synchronously sets that record's visible flag to `false` while the
record stays in the collection, and once the scheduled removal timer
fires (after the fixed `TOAST_REMOVE_DELAY`), the record is absent from
the collection. -/
theorem dismiss_marks_then_timer_removes (s : Sys) (id : String) (h : Wf s)
    (hp : ∃ t ∈ s.toasts, t.id = id) :
    (∃ t ∈ (dismiss s (some id)).toasts, t.id = id ∧ t.isOpen = false) ∧
    (∀ t ∈ (dismiss s (some id)).toasts, t.id = id → t.isOpen = false) ∧
    id ∈ (dismiss s (some id)).pending ∧
    (∀ t ∈ (fireTimer (dismiss s (some id)) id).toasts, t.id ≠ id) := by
  obtain ⟨he, _hn⟩ := h
  have hpend : id ∈ (dismiss s (some id)).pending := by
    rw [dismiss_some_pending]
    exact addQ_self_mem_snd s.timeouts s.pending id he
  refine ⟨?_, ?_, hpend, ?_⟩
  · obtain ⟨t0, ht0, hid0⟩ := hp
    refine ⟨{ t0 with isOpen := false }, ?_, hid0, rfl⟩
    rw [dismiss_some_toasts]
    have : dismissFlag id t0 = { t0 with isOpen := false } :=
      if_pos (Or.inl (by rw [hid0]))
    exact this ▸ List.mem_map_of_mem _ ht0
  · intro t htm hid
    rw [dismiss_some_toasts] at htm
    obtain ⟨u, hu, hfu⟩ := List.mem_map.mp htm
    by_cases hcase : u.id = id
    · have : dismissFlag id u = { u with isOpen := false } :=
        if_pos (Or.inl (by rw [hcase]))
      rw [this] at hfu
      rw [← hfu]
    · have : dismissFlag id u = u := dismissFlag_of_ne id u hcase
      rw [this] at hfu
      exact absurd (hfu ▸ hid) hcase
  · intro t htm
    unfold fireTimer at htm
    rw [if_pos hpend] at htm
    have : t ∈ (dismiss s (some id)).toasts.filter (fun t => t.id ≠ id) := htm
    exact of_decide_eq_true (List.mem_filter.mp this).2

/-- C1: for every sequence of `notify` calls longer than the visible
limit `TOAST_LIMIT`, starting from the initial state, the resulting
collection is exactly the `TOAST_LIMIT` most-recently-created records in
most-recent-first order (the creation-ordered record list reversed and
truncated): each notify inserts at the head and truncates, silently
discarding the oldest entries. -/
theorem notify_keeps_latest (ps : List ToastPayload) (h : TOAST_LIMIT < ps.length) :
    (notifyMany initSys ps).toasts = (mkAllFrom 0 ps).reverse.take TOAST_LIMIT ∧
    (notifyMany initSys ps).toasts.length = TOAST_LIMIT := by
  have h0 : initSys.toasts.length ≤ TOAST_LIMIT := Nat.zero_le _
  have ht := notifyMany_toasts ps initSys h0
  rw [show initSys.toasts = [] from rfl, show initSys.count = 0 from rfl,
    List.append_nil] at ht
  refine ⟨ht, ?_⟩
  rw [ht, List.length_take, List.length_reverse, mkAllFrom_length]
  omega

/-- C9: `genId` issues identifiers monotonically per process lifetime,
wrapping only at `Number.MAX_SAFE_INTEGER`: within any run of `n`
successive calls with `n` below that bound, the issued identifiers are
the decimal strings "1", "2", ..., "n" in order and are pairwise
distinct (so an identifier is never reused — in particular not while a
pending removal timer still references it); `notify` draws its
identifiers exactly from `genId`. -/
theorem genId_monotonic_distinct (n : Nat) (h : n < MAX_SAFE_INTEGER) :
    genIds 0 n = (List.range n).map (fun i => toString (i + 1)) ∧
    (genIds 0 n).Nodup ∧
    (∀ s p, (notify s p).2 = (genId s.count).2 ∧ (notify s p).1.count = (genId s.count).1) :=
  ⟨genIds_zero_eq n h, genIds_zero_nodup n h, fun _ _ => ⟨rfl, rfl⟩⟩

/-- C10: the timer bookkeeping invariant — in every state reachable from
the initial state, the `toastTimeouts` map has an entry for an
identifier exactly while that identifier's removal timer is pending
(and at most one timer per id); when a timer fires it deletes its own
map entry (no entry and no pending timer remain after the fire); and an
id with no map entry — in particular one whose timer has already fired —
gets a fresh removal timer scheduled by a subsequent dismiss. -/
theorem timer_entry_iff_pending :
    (∀ evs : List Ev, Wf (run initSys evs)) ∧
    (∀ s id, Wf s → id ∈ s.pending →
      id ∉ (fireTimer s id).timeouts ∧ id ∉ (fireTimer s id).pending) ∧
    (∀ s id, id ∉ s.timeouts →
      id ∈ (dismiss s (some id)).timeouts ∧ id ∈ (dismiss s (some id)).pending) := by
  refine ⟨fun evs => wf_run evs initSys wf_initSys, ?_, ?_⟩
  · intro s id h hp
    obtain ⟨he, hn⟩ := h
    have hpn : s.pending.Nodup := he ▸ hn
    unfold fireTimer
    rw [if_pos hp]
    constructor
    · show id ∉ s.timeouts.erase id
      rw [he]
      exact hpn.not_mem_erase
    · show id ∉ s.pending.erase id
      exact hpn.not_mem_erase
  · intro s id hid
    constructor
    · rw [dismiss_some_timeouts]
      exact addQ_self_mem s.timeouts s.pending id
    · rw [dismiss_some_pending, addQ_pending_of_absent id hid]
      exact List.mem_append_right _ (List.mem_singleton.mpr rfl)

/-- C3 counterexample: record "1" is dismissed (removal timer pending)
and then deleted from the collection by a means other than its own timer
firing — eviction by a further `notify` under `TOAST_LIMIT` — yet its
pending removal timer is NOT cancelled ("1" is still pending), and when
that timer fires it does dispatch a `REMOVE_TOAST` for the
already-removed record.  This refutes the claim that such timers are
cancelled and that no removal dispatch for an already-removed record
ever occurs. -/
theorem timer_not_cancelled_on_eviction_cex :
    "1" ∈ sE.pending ∧
    (∀ t ∈ sE.toasts, t.id ≠ "1") ∧
    (run initSys [Ev.notifyE pA, Ev.dismissE (some "1"), Ev.notifyE pB, Ev.fireE "1"]).log
      = sE.log ++ [Action.removeToast (some "1")] := by
  refine ⟨by decide, by decide, ?_⟩
  decide

/-- C3 (amended): when a record is deleted from the collection by means
other than its own timer firing (for example evicted by `ADD_TOAST`
truncation), its pending removal timer is not cancelled: eviction leaves
the timer bookkeeping untouched, the timer stays pending, and when it
eventually fires it dispatches a `REMOVE_TOAST` for the already-removed
record — which is a harmless no-op on the collection. -/
theorem evict_keeps_timer_and_stale_fire_noop (s : Sys) (p : ToastPayload)
    (id : String) (habs : ∀ t ∈ s.toasts, t.id ≠ id) (hp : id ∈ s.pending) :
    ((notify s p).1.timeouts = s.timeouts ∧ (notify s p).1.pending = s.pending) ∧
    ((fireTimer s id).toasts = s.toasts ∧
     (fireTimer s id).log = s.log ++ [Action.removeToast (some id)]) := by
  refine ⟨⟨rfl, rfl⟩, fireTimer_toasts_of_absent s id habs, ?_⟩
  unfold fireTimer
  rw [if_pos hp]
  rfl

theorem notify_keeps_latest_witness :
    TOAST_LIMIT < [pA, pB].length ∧
    ((notifyMany initSys [pA, pB]).toasts
        = (mkAllFrom 0 [pA, pB]).reverse.take TOAST_LIMIT ∧
     (notifyMany initSys [pA, pB]).toasts.length = TOAST_LIMIT) :=
  ⟨by decide, notify_keeps_latest [pA, pB] (by decide)⟩

theorem dismiss_marks_then_timer_removes_witness :
    Wf sW ∧ (∃ t ∈ sW.toasts, t.id = "1") ∧
    ((∃ t ∈ (dismiss sW (some "1")).toasts, t.id = "1" ∧ t.isOpen = false) ∧
     (∀ t ∈ (dismiss sW (some "1")).toasts, t.id = "1" → t.isOpen = false) ∧
     "1" ∈ (dismiss sW (some "1")).pending ∧
     (∀ t ∈ (fireTimer (dismiss sW (some "1")) "1").toasts, t.id ≠ "1")) :=
  ⟨by decide, by decide,
    dismiss_marks_then_timer_removes sW "1" (by decide) (by decide)⟩

theorem evict_keeps_timer_and_stale_fire_noop_witness :
    (∀ t ∈ sE.toasts, t.id ≠ "1") ∧ "1" ∈ sE.pending ∧
    (((notify sE pA).1.timeouts = sE.timeouts ∧
      (notify sE pA).1.pending = sE.pending) ∧
     ((fireTimer sE "1").toasts = sE.toasts ∧
      (fireTimer sE "1").log = sE.log ++ [Action.removeToast (some "1")])) :=
  ⟨by decide, by decide,
    evict_keeps_timer_and_stale_fire_noop sE pA "1" (by decide) (by decide)⟩

theorem dismiss_twice_one_timer_witness :
    Wf sW ∧ "1" ∉ sW.timeouts ∧
    ((dismiss (dismiss sW (some "1")) (some "1")).pending.count "1" = 1 ∧
     (dismiss (dismiss sW (some "1")) (some "1")).pending
        = (dismiss sW (some "1")).pending ∧
     (dismiss (dismiss sW (some "1")) (some "1")).timeouts
        = (dismiss sW (some "1")).timeouts ∧
     (dismiss (dismiss sW (some "1")) (some "1")).toasts
        = (dismiss sW (some "1")).toasts) :=
  ⟨by decide, by decide, dismiss_twice_one_timer sW "1" (by decide) (by decide)⟩

theorem dismiss_all_marks_and_schedules_witness :
    Wf sW ∧
    ((dismiss sW none).toasts = sW.toasts.map (fun t => { t with isOpen := false }) ∧
     (∀ t ∈ sW.toasts, t.id ∈ (dismiss sW none).pending)) :=
  ⟨by decide, dismiss_all_marks_and_schedules sW (by decide)⟩

theorem update_merge_semantics_witness :
    ((∀ t ∈ sW.toasts, t.id ≠ qW.id) → (update sW qW).toasts = sW.toasts) ∧
    (∀ t ∈ sW.toasts, t.id = qW.id → mergeToast t qW ∈ (update sW qW).toasts) ∧
    (∀ t ∈ sW.toasts, t.id ≠ qW.id → t ∈ (update sW qW).toasts) ∧
    (∀ t : ToasterToast,
      (mergeToast t qW).id = qW.id ∧
      (qW.title = none → (mergeToast t qW).title = t.title) ∧
      (∀ v, qW.title = some v → (mergeToast t qW).title = some v) ∧
      (qW.description = none → (mergeToast t qW).description = t.description) ∧
      (∀ v, qW.description = some v → (mergeToast t qW).description = some v) ∧
      (qW.action = none → (mergeToast t qW).action = t.action) ∧
      (∀ v, qW.action = some v → (mergeToast t qW).action = some v) ∧
      (qW.isOpen = none → (mergeToast t qW).isOpen = t.isOpen) ∧
      (∀ b, qW.isOpen = some b → (mergeToast t qW).isOpen = b)) :=
  update_merge_semantics sW qW

theorem ops_total_noop_on_unknown_witness :
    ((∀ t ∈ sW.toasts, t.id ≠ q9.id) → (update sW q9).toasts = sW.toasts) ∧
    ((∀ t ∈ sW.toasts, t.id ≠ "9") → (dismiss sW (some "9")).toasts = sW.toasts) ∧
    ("9" ∉ sW.pending → fireTimer sW "9" = sW) ∧
    ((∀ t ∈ sW.toasts, t.id ≠ "9") → (fireTimer sW "9").toasts = sW.toasts) ∧
    ((notify sW pB).1.toasts
      = [{ id := (genId sW.count).2, title := pB.title, description := pB.description,
           action := pB.action, isOpen := true }]) :=
  ops_total_noop_on_unknown sW pB q9 "9"

theorem genId_monotonic_distinct_witness :
    3 < MAX_SAFE_INTEGER ∧
    (genIds 0 3 = (List.range 3).map (fun i => toString (i + 1)) ∧
     (genIds 0 3).Nodup ∧
     (∀ s p, (notify s p).2 = (genId s.count).2 ∧
       (notify s p).1.count = (genId s.count).1)) :=
  ⟨by decide, genId_monotonic_distinct 3 (by decide)⟩

theorem timer_entry_iff_pending_witness :
    Wf sD ∧ "1" ∈ sD.pending ∧
    ("1" ∉ (fireTimer sD "1").timeouts ∧ "1" ∉ (fireTimer sD "1").pending) :=
  ⟨by decide, by decide, timer_entry_iff_pending.2.1 sD "1" (by decide) (by decide)⟩

end ToastSpec
